import Mathlib

/-!
Verification of the points-table ranking, grouping and rendering logic of the
esports tournament-management application.

The TypeScript sources embedded here are:
* src/components/admin/PointsTableAdmin.tsx — `autoCalculatePositions`,
  `autoAssignGroups`, `saveEdit`;
* src/components/tournament/PointsTable.tsx — `parseTeamSize` and the
  component's render branching;
* the revised public points table (unnamed part_000) — the per-group display
  sort `(points desc, kills desc, wins desc)`.

JavaScript `Array.prototype.sort` is a stable sort (ECMAScript 2019); a stable
sort with respect to a total preorder has a uniquely determined output, so it
is embedded as `List.mergeSort`, which is stable with the same comparator.
-/

/-! ### JavaScript primitives -/

/-- Decimal digit value of a character, `none` when it is not a digit. -/
def decDigit? (c : Char) : Option Nat :=
  if c.isDigit then some (c.toNat - 48) else none

/-- Hexadecimal digit value of a character, `none` when it is not a hex digit. -/
def hexDigit? (c : Char) : Option Nat :=
  if c.isDigit then some (c.toNat - 48)
  else if 97 ≤ c.toNat ∧ c.toNat ≤ 102 then some (c.toNat - 87)
  else if 65 ≤ c.toNat ∧ c.toNat ≤ 70 then some (c.toNat - 55)
  else none

/-- Accumulate the value of the longest digit run at the head of the list,
stopping at the first non-digit, as JavaScript `parseInt` does. -/
def digitsVal (f : Char → Option Nat) (base : Nat) : List Char → Nat → Nat
  | [], acc => acc
  | c :: cs, acc =>
    match f c with
    | some d => digitsVal f base cs (acc * base + d)
    | none => acc

/-- Parse a digit run; `none` when the first character is not a digit
(JavaScript `parseInt` then returns `NaN`). -/
def parseDigits (f : Char → Option Nat) (base : Nat) (cs : List Char) : Option Nat :=
  match cs with
  | c :: _ =>
    match f c with
    | some _ => some (digitsVal f base cs 0)
    | none => none
  | [] => none

/-- Whitespace skipped by JavaScript `parseInt`. -/
def isJsSpace (c : Char) : Bool :=
  c = ' ' || c = '\t' || c = '\n' || c = '\r'

/-- JavaScript `parseInt(s)` (radix unspecified): skip leading whitespace, an
optional sign, recognise a `0x`/`0X` hexadecimal literal, otherwise parse the
longest leading decimal digit run; `none` models `NaN`. -/
def parseIntJS (s : String) : Option Int :=
  let cs := s.data.dropWhile isJsSpace
  let signed : Int × List Char :=
    match cs with
    | '-' :: r => (-1, r)
    | '+' :: r => (1, r)
    | r => (1, r)
  match signed.2 with
  | '0' :: 'x' :: r => (parseDigits hexDigit? 16 r).map (fun n => signed.1 * n)
  | '0' :: 'X' :: r => (parseDigits hexDigit? 16 r).map (fun n => signed.1 * n)
  | _ => (parseDigits decDigit? 10 signed.2).map (fun n => signed.1 * n)

/-- JavaScript `v || d` on a number: `NaN` (here `none`) and `0` are falsy and
yield the default. -/
def jsOrInt (v : Option Int) (d : Int) : Int :=
  match v with
  | none => d
  | some n => if n = 0 then d else n

/-- Whether the character list `sub` occurs at the head of `l`. -/
def startsWithCL : List Char → List Char → Bool
  | _, [] => true
  | [], _ :: _ => false
  | c :: cs, d :: ds => c = d && startsWithCL cs ds

/-- Whether the character list `sub` occurs contiguously anywhere in `l`. -/
def containsCL : List Char → List Char → Bool
  | [], sub => sub.isEmpty
  | l@(_ :: cs), sub => startsWithCL l sub || containsCL cs sub

/-- JavaScript `s.includes(sub)`. -/
def strIncludes (s sub : String) : Bool :=
  containsCL s.data sub.data

/-- ASCII lower-casing of one character, as `toLowerCase` acts on these
inputs. -/
def jsCharLower (c : Char) : Char :=
  if 65 ≤ c.toNat ∧ c.toNat ≤ 90 then Char.ofNat (c.toNat + 32) else c

/-- The `String(size).toLowerCase().trim()` normalisation: lower-case, then
strip leading and trailing whitespace. -/
def jsLowerTrim (s : String) : String :=
  String.mk ((((s.data.map jsCharLower).dropWhile isJsSpace).reverse.dropWhile
    isJsSpace).reverse)

/-! ### Data model

`PointsTableEntry` from PointsTableAdmin.tsx — one row of the
`tournament_points` table.  The public `PointsEntry` interface is a narrowing
of the same row type, so a single structure serves both components. -/

structure Entry where
  id : String
  tournament_id : String
  team_id : String
  team_name : String
  points : Int
  position : Int
  kills : Int
  wins : Int
  group_name : Option String
  position_in_group : Option Int
  created_at : String
  updated_at : String
deriving Repr, DecidableEq

/-- One row of the payload that `autoCalculatePositions` passes to
`supabase.from('tournament_points').upsert`.  The grouped branch includes the
`group_name` and `position_in_group` columns, the ungrouped branch omits them;
an omitted column (`none` in the outer option) is left untouched by the
upsert. -/
structure UpdateRow where
  id : String
  tournament_id : String
  team_id : String
  team_name : String
  points : Int
  kills : Int
  wins : Int
  position : Int
  group_name : Option (Option String)
  position_in_group : Option Int
deriving Repr, DecidableEq

/-- Effect of upserting `u` onto the existing row `row` (conflict on `id`):
columns present in the payload overwrite, omitted columns keep the stored
value. -/
def applyUpsert (row : Entry) (u : UpdateRow) : Entry :=
  { id := u.id
    tournament_id := u.tournament_id
    team_id := u.team_id
    team_name := u.team_name
    points := u.points
    kills := u.kills
    wins := u.wins
    position := u.position
    group_name := u.group_name.getD row.group_name
    position_in_group :=
      match u.position_in_group with
      | some p => some p
      | none => row.position_in_group
    created_at := row.created_at
    updated_at := row.updated_at }

/-! ### The admin ranker (`autoCalculatePositions`) -/

/-- The sort comparator of `autoCalculatePositions` as a total preorder:
`entryLE a b` means the comparator value `cmp(a,b)` is `≤ 0`, i.e. `a` may be
placed before `b`.  The source comparator is

  if (b.points !== a.points) return b.points - a.points;
  return b.kills - a.kills;

— descending points, then descending kills.  It never inspects `wins`. -/
def entryLE (a b : Entry) : Bool :=
  if a.points ≠ b.points then decide (b.points < a.points)
  else decide (b.kills ≤ a.kills)

/-- The stable sort `[...pointsEntries].sort(cmp)`. -/
def sortEntries (l : List Entry) : List Entry :=
  l.mergeSort entryLE

/-- The partition key `entry.group_name || 'Ungrouped'`: `null` and the empty
string are falsy and fall back to the literal label. -/
def normGroup (g : Option String) : String :=
  match g with
  | none => "Ungrouped"
  | some s => if s = "" then "Ungrouped" else s

/-- One step of the `reduce` that builds `groupedEntries`: push `e` onto the
bucket named `k`, creating the bucket at the end when it is new (JavaScript
object string keys enumerate in insertion order). -/
def addToGroup (gs : List (String × List Entry)) (k : String) (e : Entry) :
    List (String × List Entry) :=
  match gs with
  | [] => [(k, [e])]
  | (k0, es) :: rest =>
    if k0 = k then (k0, es ++ [e]) :: rest else (k0, es) :: addToGroup rest k e

/-- The `reduce` of `autoCalculatePositions` (and of the public points table):
partition a list of entries into named buckets keyed by
`entry.group_name || 'Ungrouped'`, in first-occurrence key order. -/
def groupByName (l : List Entry) : List (String × List Entry) :=
  l.foldl (fun gs e => addToGroup gs (normGroup e.group_name) e) []

/-- `sortedEntries.findIndex(e => e.id === entry.id)`.  The entries looked up
always come from `sorted` itself, so the JavaScript `-1` (not found) case is
unreachable. -/
def overallIndexOf (sorted : List Entry) (e : Entry) : Nat :=
  sorted.findIdx (fun x => x.id == e.id)

/-- The update rows produced for one group by the inner `forEach` of the
grouped branch: overall `position` from the index in the full sorted list,
`position_in_group` from the index within the group. -/
def groupUpdates (sorted : List Entry) (es : List Entry) : List UpdateRow :=
  es.enum.map (fun ie =>
    { id := ie.2.id
      tournament_id := ie.2.tournament_id
      team_id := ie.2.team_id
      team_name := ie.2.team_name
      points := ie.2.points
      kills := ie.2.kills
      wins := ie.2.wins
      group_name := some ie.2.group_name
      position := (overallIndexOf sorted ie.2 : Int) + 1
      position_in_group := some ((ie.1 : Int) + 1) })

/-- The grouped branch of `autoCalculatePositions`. -/
def autoCalcGrouped (entries : List Entry) : List UpdateRow :=
  let sorted := sortEntries entries
  (groupByName sorted).flatMap (fun gp => groupUpdates sorted gp.2)

/-- The ungrouped branch of `autoCalculatePositions`: positions `1..N` along
the sorted order, `group_name` and `position_in_group` columns absent. -/
def autoCalcUngrouped (entries : List Entry) : List UpdateRow :=
  (sortEntries entries).enum.map (fun ie =>
    { id := ie.2.id
      tournament_id := ie.2.tournament_id
      team_id := ie.2.team_id
      team_name := ie.2.team_name
      points := ie.2.points
      kills := ie.2.kills
      wins := ie.2.wins
      group_name := none
      position := (ie.1 : Int) + 1
      position_in_group := none })

/-- `autoCalculatePositions`: early return on an empty table, otherwise the
grouped or ungrouped branch according to `supportsGrouping`. -/
def autoCalculatePositions (supportsGrouping : Bool) (entries : List Entry) :
    List UpdateRow :=
  if entries.isEmpty then []
  else if supportsGrouping then autoCalcGrouped entries
  else autoCalcUngrouped entries

/-! ### `saveEdit` -/

/-- The edit form state (all text inputs). -/
structure EditForm where
  points : String
  kills : String
  wins : String
  position : String
  group_name : String
deriving Repr, DecidableEq

/-- The `updateData` object written by `saveEdit` for a single row.
`group_name` is included only when the tournament supports grouping
(`editForm.group_name || null` maps the empty string to null). -/
structure SaveEditData where
  points : Int
  kills : Int
  wins : Int
  position : Int
  group_name : Option (Option String)
deriving Repr, DecidableEq

/-- The numeric coercions of `saveEdit`: `parseInt(x) || 0` for the counters
and `parseInt(x) || 1` for the position.  No validation is performed. -/
def saveEditData (form : EditForm) (supportsGrouping : Bool) : SaveEditData :=
  { points := jsOrInt (parseIntJS form.points) 0
    kills := jsOrInt (parseIntJS form.kills) 0
    wins := jsOrInt (parseIntJS form.wins) 0
    position := jsOrInt (parseIntJS form.position) 1
    group_name :=
      if supportsGrouping then
        some (if form.group_name = "" then none else some form.group_name)
      else none }

/-! ### `autoAssignGroups` -/

/-- The candidate group letters. -/
def groupLetters : List String := ["A", "B", "C", "D", "E", "F", "G", "H"]

/-- JavaScript `l.slice(0, e)`: a negative end counts from the end of the
list. -/
def jsSliceTo (l : List String) (e : Int) : List String :=
  if e < 0 then l.take (((l.length : Int) + e).toNat) else l.take e.toNat

/-- The template literal `` `Group ${groups[index % numberOfGroups]}` ``:
an out-of-range index (or `index % 0`, which is `NaN`) reads `undefined`,
which the template renders as the text "undefined". -/
def jsGroupLabel (groups : List String) (i : Nat) (g : Int) : String :=
  match (if g = 0 then none else groups.get? (i % g.natAbs)) with
  | some s => "Group " ++ s
  | none => "Group undefined"

/-- `autoAssignGroups`: label every entry round-robin by list index modulo the
requested group count.  There is no validation of `numberOfGroups`. -/
def autoAssignGroups (entries : List Entry) (numberOfGroups : Int) : List Entry :=
  let groups := jsSliceTo groupLetters numberOfGroups
  entries.enum.map (fun ie =>
    { ie.2 with group_name := some (jsGroupLabel groups ie.1 numberOfGroups) })

/-! ### The public points table (PointsTable.tsx and its revision) -/

/-- The comparator of the revised public table's per-group sort (unnamed
part_000, lines 235-239): descending points, then kills, then wins. -/
def entryLE3 (a b : Entry) : Bool :=
  if a.points ≠ b.points then decide (b.points < a.points)
  else if a.kills ≠ b.kills then decide (b.kills < a.kills)
  else decide (b.wins ≤ a.wins)

/-- The revised public table's group ranking: within each bucket, stable-sort
by `entryLE3` and assign `position_in_group` as 1-based index. -/
def displayGroupRank (entries : List Entry) : List (String × List Entry) :=
  (groupByName entries).map (fun gp =>
    (gp.1, (gp.2.mergeSort entryLE3).enum.map (fun ie =>
      { ie.2 with position_in_group := some ((ie.1 : Int) + 1) })))

/-- The loosely typed `teamSize` prop (`any`): a number, a string, `null` or
`undefined`. -/
inductive TeamSizeValue where
  | num (n : Int)
  | str (s : String)
  | nullVal
  | undefVal
deriving Repr, DecidableEq

/-- `parseTeamSize` from PointsTable.tsx: numbers pass through, falsy values
default to 1, strings are matched against duo/squad/five keywords and
otherwise parsed, with `NaN` defaulting to 1. -/
def parseTeamSize (size : TeamSizeValue) : Int :=
  match size with
  | .num n => n
  | .nullVal => 1
  | .undefVal => 1
  | .str s =>
    if s = "" then 1
    else
      let sizeStr := jsLowerTrim s
      if strIncludes sizeStr "duo" || sizeStr = "2" then 2
      else if strIncludes sizeStr "squad" || sizeStr = "4" then 4
      else if strIncludes sizeStr "5" || strIncludes sizeStr "five" then 5
      else
        match parseIntJS sizeStr with
        | none => 1
        | some n => n

/-- What the points-table component renders (beyond `null`). -/
inductive PTRender where
  | loadingCard
  | emptyStateCard
  | groupedTables (groups : List (String × List Entry))
  | singleTable (rows : List Entry)
deriving Repr, DecidableEq

/-- Render branching of PointsTable.tsx: `null` for solo tournaments before
anything else, then the loading card, the empty-state card, and the grouped
or single table (group sections sorted by `localeCompare`, lexicographic on
these ASCII labels). -/
def pointsTableView (teamSize : TeamSizeValue) (loading : Bool)
    (entries : List Entry) : Option PTRender :=
  let teamSizeNum := parseTeamSize teamSize
  if teamSizeNum ≤ 1 then none
  else if loading then some PTRender.loadingCard
  else if entries.isEmpty then some PTRender.emptyStateCard
  else
    let is5Man := teamSizeNum = 5
    let grouped := if is5Man then groupByName entries else []
    let hasGroups := is5Man ∧ grouped ≠ [] ∧
      entries.any (fun e => decide (e.group_name.getD "" ≠ ""))
    if hasGroups then
      some (PTRender.groupedTables
        (grouped.mergeSort (fun a b => decide (a.1 ≤ b.1))))
    else some (PTRender.singleTable entries)

/-! ### Observation helpers -/

/-- The ids of a list of entries. -/
def entryIds (l : List Entry) : List String := l.map (·.id)

/-- Overall position recorded for id `z` in an update batch. -/
def posOf (updates : List UpdateRow) (z : String) : Option Int :=
  (updates.find? (fun u => u.id == z)).map (·.position)

/-- Group position recorded for id `z` in an update batch (outer `none`: no
row with that id; inner `none`: the column is absent from the payload). -/
def gposOf (updates : List UpdateRow) (z : String) : Option (Option Int) :=
  (updates.find? (fun u => u.id == z)).map (·.position_in_group)

/-- All entries of `l` whose normalised group label is `k`. -/
def bucketOfKey (l : List Entry) (k : String) : List Entry :=
  l.filter (fun e => normGroup e.group_name == k)

/-- The keys of a bucket list. -/
def keysOf (gs : List (String × List Entry)) : List String := gs.map (·.1)

/-- The bucket stored under key `k` (empty when the key is absent). -/
def bucketIn (gs : List (String × List Entry)) (k : String) : List Entry :=
  ((gs.find? (fun p => p.1 == k)).map (·.2)).getD []

/-- The experiment of claim C5: rewrite the `group_name` of the single record
with id `rid` to `g`, leaving every other record untouched. -/
def regroup (rid : String) (g : Option String) (e : Entry) : Entry :=
  if e.id = rid then { e with group_name := g } else e

/-! ### Concrete test data for witnesses and counterexamples -/

/-- A concrete points-table row. -/
def cE (i team : String) (p k w : Int) (g : Option String) : Entry :=
  { id := i, tournament_id := "T1", team_id := i, team_name := team, points := p,
    position := 0, kills := k, wins := w, group_name := g, position_in_group := none,
    created_at := "", updated_at := "" }

/-- Two records tied on points and kills, differing only in wins, the
fewer-wins record first in input order. -/
def c1Entries : List Entry :=
  [cE "t1" "Alpha" 10 5 0 none, cE "t2" "Beta" 10 5 3 none]

/-- Four records in two groups X and Y. -/
def c3Entries : List Entry :=
  [cE "x1" "XrayOne" 10 0 0 (some "X"), cE "x2" "XrayTwo" 8 0 0 (some "X"),
   cE "y1" "YankeeOne" 9 0 0 (some "Y"), cE "y2" "YankeeTwo" 7 0 0 (some "Y")]

/-- The X bucket of `c3Entries`. -/
def c3BucketX : List Entry :=
  [cE "x1" "XrayOne" 10 0 0 (some "X"), cE "x2" "XrayTwo" 8 0 0 (some "X")]

/-- Two records with fully equal counters. -/
def c4Entries : List Entry :=
  [cE "a1" "AlphaOne" 5 5 5 none, cE "a2" "AlphaTwo" 5 5 5 none]

/-- Nine records, one more than the eight available group letters. -/
def c6Entries : List Entry :=
  [cE "n1" "NOne" 9 0 0 none, cE "n2" "NTwo" 8 0 0 none, cE "n3" "NThree" 7 0 0 none,
   cE "n4" "NFour" 6 0 0 none, cE "n5" "NFive" 5 0 0 none, cE "n6" "NSix" 4 0 0 none,
   cE "n7" "NSeven" 3 0 0 none, cE "n8" "NEight" 2 0 0 none, cE "n9" "NNine" 1 0 0 none]

/-- A batch containing a record with a negative points counter. -/
def c7Entries : List Entry :=
  [cE "n1" "Negative" (-5) 2 0 none, cE "n2" "Positive" 4 1 0 none]

/-- Seven records for the round-robin scenario. -/
def c8Entries : List Entry :=
  [cE "s1" "SOne" 9 0 0 none, cE "s2" "STwo" 8 0 0 none, cE "s3" "SThree" 7 0 0 none,
   cE "s4" "SFour" 6 0 0 none, cE "s5" "SFive" 5 0 0 none, cE "s6" "SSix" 4 0 0 none,
   cE "s7" "SSeven" 3 0 0 none]

/-- A single grouped record. -/
def c9Entry : Entry := cE "w1" "Whiskey" 1 2 3 (some "G")

/-- The single update row the ungrouped branch produces for `[c9Entry]`. -/
def c9Row : UpdateRow :=
  { id := "w1", tournament_id := "T1", team_id := "w1", team_name := "Whiskey",
    points := 1, kills := 2, wins := 3, position := 1, group_name := none,
    position_in_group := none }

/-! ### Comparator and sort facts -/

theorem entryLE_iff (a b : Entry) :
    entryLE a b = true ↔ (b.points < a.points ∨ (a.points = b.points ∧ b.kills ≤ a.kills)) := by
  simp only [entryLE]
  split <;> rename_i h <;> simp only [decide_eq_true_eq] <;> omega

theorem entryLE_trans (a b c : Entry) :
    entryLE a b = true → entryLE b c = true → entryLE a c = true := by
  simp only [entryLE_iff]; omega

theorem entryLE_total (a b : Entry) : (entryLE a b || entryLE b a) = true := by
  rw [Bool.or_eq_true]; simp only [entryLE_iff]; omega

theorem sortEntries_perm (l : List Entry) : (sortEntries l).Perm l :=
  List.mergeSort_perm l entryLE

theorem entryIds_sortEntries_perm (l : List Entry) :
    (entryIds (sortEntries l)).Perm (entryIds l) :=
  (sortEntries_perm l).map _

theorem nodup_ids_sortEntries {l : List Entry} (h : (entryIds l).Nodup) :
    (entryIds (sortEntries l)).Nodup :=
  ((entryIds_sortEntries_perm l).nodup_iff).mpr h

theorem eq_of_id_eq {l : List Entry} (h : (entryIds l).Nodup) {a b : Entry}
    (ha : a ∈ l) (hb : b ∈ l) (hab : a.id = b.id) : a = b := by
  induction l with
  | nil => cases ha
  | cons c t ih =>
    simp only [entryIds, List.map_cons, List.nodup_cons, List.mem_map] at h
    rcases List.mem_cons.mp ha with rfl | hat
    · rcases List.mem_cons.mp hb with rfl | hbt
      · rfl
      · exact absurd ⟨b, hbt, hab.symm⟩ h.1
    · rcases List.mem_cons.mp hb with rfl | hbt
      · exact absurd ⟨a, hat, hab⟩ h.1
      · exact ih h.2 hat hbt

theorem findIdx_id_of_append (s t : List Entry) (e : Entry)
    (hs : e.id ∉ entryIds s) :
    (s ++ e :: t).findIdx (fun x => x.id == e.id) = s.length := by
  induction s with
  | nil => simp [List.findIdx_cons]
  | cons a s ih =>
    simp only [entryIds, List.map_cons, List.mem_cons, not_or] at hs
    simp only [List.cons_append, List.findIdx_cons, List.length_cons]
    have : (a.id == e.id) = false := by
      simp only [beq_eq_false_iff_ne, ne_eq]
      exact fun hc => hs.1 hc.symm
    rw [this]
    simp [ih (by simpa [entryIds] using hs.2)]

theorem exists_decomp_of_mem {l : List Entry} (h : (entryIds l).Nodup) {e : Entry}
    (he : e ∈ l) : ∃ s t, l = s ++ e :: t ∧ e.id ∉ entryIds s := by
  obtain ⟨s, t, rfl⟩ := List.append_of_mem he
  refine ⟨s, t, rfl, ?_⟩
  simp only [entryIds, List.map_append, List.map_cons, List.nodup_append,
    List.nodup_cons] at h
  intro hc
  simp only [entryIds, List.mem_map] at hc
  obtain ⟨a, has, haid⟩ := hc
  exact h.2.2 (by simpa using ⟨a, has, haid⟩) (List.mem_cons_self _ _)

/-! ### Bucket-structure facts about `groupByName` -/

theorem keysOf_addToGroup (gs : List (String × List Entry)) (k : String) (e : Entry) :
    keysOf (addToGroup gs k e) =
      if k ∈ keysOf gs then keysOf gs else keysOf gs ++ [k] := by
  induction gs with
  | nil => simp [addToGroup, keysOf]
  | cons p rest ih =>
    obtain ⟨k0, es⟩ := p
    by_cases h : k0 = k
    · subst h
      simp [addToGroup, keysOf]
    · simp only [addToGroup, if_neg h, keysOf, List.map_cons]
      by_cases hk : k ∈ keysOf rest
      · simp only [keysOf] at hk ih
        simp [hk, ih, List.mem_cons, Ne.symm h]
      · simp only [keysOf] at hk ih
        simp [hk, ih, List.mem_cons, Ne.symm h]

theorem bucketIn_addToGroup_self (gs : List (String × List Entry)) (k : String) (e : Entry) :
    bucketIn (addToGroup gs k e) k = bucketIn gs k ++ [e] := by
  induction gs with
  | nil => simp [addToGroup, bucketIn, List.find?]
  | cons p rest ih =>
    obtain ⟨k0, es⟩ := p
    by_cases h : k0 = k
    · subst h
      simp [addToGroup, bucketIn, List.find?]
    · have hbeq : (k0 == k) = false := beq_eq_false_iff_ne.mpr h
      simp only [addToGroup, if_neg h]
      simp only [bucketIn, List.find?, hbeq] at ih ⊢
      exact ih

theorem bucketIn_addToGroup_ne (gs : List (String × List Entry)) (k k' : String) (e : Entry)
    (h : k' ≠ k) : bucketIn (addToGroup gs k e) k' = bucketIn gs k' := by
  induction gs with
  | nil =>
    have hbeq : (k == k') = false := beq_eq_false_iff_ne.mpr (Ne.symm h)
    simp [addToGroup, bucketIn, List.find?, hbeq]
  | cons p rest ih =>
    obtain ⟨k0, es⟩ := p
    by_cases h0 : k0 = k
    · subst h0
      have hbeq : (k0 == k') = false := beq_eq_false_iff_ne.mpr (Ne.symm h)
      simp [addToGroup, bucketIn, List.find?, hbeq]
    · simp only [addToGroup, if_neg h0]
      by_cases h1 : k0 = k'
      · subst h1
        simp [bucketIn, List.find?]
      · have hbeq : (k0 == k') = false := beq_eq_false_iff_ne.mpr h1
        simp only [bucketIn, List.find?, hbeq] at ih ⊢
        exact ih

theorem flat_addToGroup (gs : List (String × List Entry)) (k : String) (e : Entry) :
    ((addToGroup gs k e).flatMap (·.2)).Perm (gs.flatMap (·.2) ++ [e]) := by
  induction gs with
  | nil => simp [addToGroup]
  | cons p rest ih =>
    obtain ⟨k0, es⟩ := p
    by_cases h : k0 = k
    · subst h
      rw [show addToGroup ((k0, es) :: rest) k0 e = (k0, es ++ [e]) :: rest by
        simp [addToGroup]]
      simp only [List.flatMap_cons]
      rw [List.append_assoc, List.append_assoc]
      exact List.Perm.append_left es (List.perm_append_comm)
    · simp only [addToGroup, if_neg h, List.flatMap_cons]
      rw [List.append_assoc]
      exact List.Perm.append_left es ih

theorem nodup_keys_addToGroup {gs : List (String × List Entry)} (k : String) (e : Entry)
    (h : (keysOf gs).Nodup) : (keysOf (addToGroup gs k e)).Nodup := by
  rw [keysOf_addToGroup]
  by_cases hk : k ∈ keysOf gs
  · simpa [hk]
  · simp [hk, h, List.nodup_append]

theorem mem_iff_bucketIn {gs : List (String × List Entry)} (h : (keysOf gs).Nodup)
    {k : String} {es : List Entry} :
    (k, es) ∈ gs ↔ (k ∈ keysOf gs ∧ es = bucketIn gs k) := by
  induction gs with
  | nil => simp [keysOf, bucketIn]
  | cons p rest ih =>
    obtain ⟨k0, es0⟩ := p
    simp only [keysOf, List.map_cons, List.nodup_cons] at h
    by_cases hk : k = k0
    · subst hk
      have hbeq : (k == k) = true := beq_self_eq_true k
      have hnotin : (k, es) ∉ rest := by
        intro hc
        exact h.1 (by simpa [keysOf] using List.mem_map_of_mem (·.1) hc)
      simp only [List.mem_cons, bucketIn, List.find?, hbeq, keysOf, List.map_cons]
      constructor
      · rintro (heq | hc)
        · simp_all
        · exact absurd hc hnotin
      · rintro ⟨_, rfl⟩
        simp
    · have hbeq : (k0 == k) = false := beq_eq_false_iff_ne.mpr (Ne.symm hk)
      simp only [List.mem_cons, bucketIn, List.find?, hbeq, keysOf, List.map_cons]
      rw [ih h.2]
      constructor
      · rintro (heq | hc)
        · exact absurd (congrArg Prod.fst heq) hk
        · exact ⟨Or.inr hc.1, hc.2⟩
      · rintro ⟨hm | hm, rfl⟩
        · exact absurd hm hk
        · exact Or.inr ⟨hm, rfl⟩

theorem foldl_bucketIn (l : List Entry) :
    ∀ (gs : List (String × List Entry)) (k : String),
    bucketIn (l.foldl (fun gs e => addToGroup gs (normGroup e.group_name) e) gs) k =
      bucketIn gs k ++ l.filter (fun e => normGroup e.group_name == k) := by
  induction l with
  | nil => simp
  | cons e l ih =>
    intro gs k
    simp only [List.foldl_cons, List.filter_cons]
    by_cases h : normGroup e.group_name = k
    · subst h
      simp only [beq_self_eq_true, if_pos]
      rw [ih, bucketIn_addToGroup_self, List.append_assoc]
      rfl
    · have hbeq : (normGroup e.group_name == k) = false := beq_eq_false_iff_ne.mpr h
      simp only [hbeq, Bool.false_eq_true, if_false]
      rw [ih, bucketIn_addToGroup_ne _ _ _ _ (Ne.symm h)]

theorem foldl_keys_nodup (l : List Entry) :
    ∀ (gs : List (String × List Entry)), (keysOf gs).Nodup →
    (keysOf (l.foldl (fun gs e => addToGroup gs (normGroup e.group_name) e) gs)).Nodup := by
  induction l with
  | nil => intro gs h; simpa using h
  | cons e l ih =>
    intro gs h
    exact ih _ (nodup_keys_addToGroup _ _ h)

theorem foldl_flat_perm (l : List Entry) :
    ∀ (gs : List (String × List Entry)),
    ((l.foldl (fun gs e => addToGroup gs (normGroup e.group_name) e) gs).flatMap (·.2)).Perm
      (gs.flatMap (·.2) ++ l) := by
  induction l with
  | nil => simp
  | cons e l ih =>
    intro gs
    simp only [List.foldl_cons]
    refine (ih _).trans ?_
    have h1 := flat_addToGroup gs (normGroup e.group_name) e
    refine (h1.append_right l).trans ?_
    rw [List.append_assoc, List.singleton_append]

theorem foldl_keys_mem (l : List Entry) :
    ∀ (gs : List (String × List Entry)) (k : String),
    (k ∈ keysOf (l.foldl (fun gs e => addToGroup gs (normGroup e.group_name) e) gs) ↔
      k ∈ keysOf gs ∨ ∃ e ∈ l, normGroup e.group_name = k) := by
  induction l with
  | nil => simp
  | cons e l ih =>
    intro gs k
    simp only [List.foldl_cons]
    rw [ih]
    have hmem : k ∈ keysOf (addToGroup gs (normGroup e.group_name) e) ↔
        k ∈ keysOf gs ∨ normGroup e.group_name = k := by
      rw [keysOf_addToGroup]
      by_cases hk : normGroup e.group_name ∈ keysOf gs
      · simp only [if_pos hk]
        constructor
        · exact Or.inl
        · rintro (h | rfl)
          · exact h
          · exact hk
      · simp only [if_neg hk, List.mem_append, List.mem_singleton]
        constructor
        · rintro (h | rfl)
          · exact Or.inl h
          · exact Or.inr rfl
        · rintro (h | rfl)
          · exact Or.inl h
          · exact Or.inr rfl
    rw [hmem]
    simp only [List.mem_cons]
    constructor
    · rintro ((h | h) | ⟨a, ha, rfl⟩)
      · exact Or.inl h
      · exact Or.inr ⟨e, Or.inl rfl, h⟩
      · exact Or.inr ⟨a, Or.inr ha, rfl⟩
    · rintro (h | ⟨a, (rfl | ha), hk⟩)
      · exact Or.inl (Or.inl h)
      · exact Or.inl (Or.inr hk)
      · exact Or.inr ⟨a, ha, hk⟩

theorem groupByName_mem {l : List Entry} {k : String} {es : List Entry} :
    (k, es) ∈ groupByName l ↔
      ((∃ e ∈ l, normGroup e.group_name = k) ∧ es = bucketOfKey l k) := by
  have hnd : (keysOf (groupByName l)).Nodup := by
    have := foldl_keys_nodup l [] (by simp [keysOf])
    simpa [groupByName] using this
  rw [mem_iff_bucketIn hnd]
  have h1 : bucketIn (groupByName l) k = bucketOfKey l k := by
    have := foldl_bucketIn l [] k
    simpa [groupByName, bucketIn, bucketOfKey] using this
  have h2 : k ∈ keysOf (groupByName l) ↔ ∃ e ∈ l, normGroup e.group_name = k := by
    have := foldl_keys_mem l [] k
    simpa [groupByName, keysOf] using this
  rw [h1, h2]

theorem groupByName_flat_perm (l : List Entry) :
    ((groupByName l).flatMap (·.2)).Perm l := by
  have := foldl_flat_perm l []
  simpa [groupByName] using this

/-! ### Index and lookup facts -/

theorem enum_map_snd_comp {α β : Type} (l : List α) (f : α → β) :
    l.enum.map (fun ie => f ie.2) = l.map f := by
  have h : (fun (ie : Nat × α) => f ie.2) = f ∘ Prod.snd := rfl
  rw [h, ← List.map_map, List.enum_map_snd]

theorem enum_map_fst_comp {α β : Type} (l : List α) (g : Nat → β) :
    l.enum.map (fun ie => g ie.1) = (List.range l.length).map g := by
  have h : (fun (ie : Nat × α) => g ie.1) = g ∘ Prod.fst := rfl
  rw [h, ← List.map_map, List.enum_map_fst]

theorem mem_enum_of_getElem {α : Type} {l : List α} {i : Nat} (h : i < l.length) :
    (i, l[i]) ∈ l.enum := by
  have hl : i < l.enum.length := by simpa [List.enum_length] using h
  have hg := List.getElem_enum l i hl
  rw [← hg]
  exact List.getElem_mem hl

theorem find?_eq_some_of_unique {α : Type} {p : α → Bool} :
    ∀ {l : List α} {u : α}, u ∈ l → p u = true → (∀ v ∈ l, p v = true → v = u) →
    l.find? p = some u := by
  intro l
  induction l with
  | nil => intro u hu; cases hu
  | cons a t ih =>
    intro u hu hp huniq
    by_cases hpa : p a = true
    · rw [List.find?_cons_of_pos _ hpa]
      exact congrArg some (huniq a (List.mem_cons_self a t) hpa)
    · rw [List.find?_cons_of_neg _ hpa]
      rcases List.mem_cons.mp hu with rfl | hut
      · exact absurd hp hpa
      · exact ih hut hp (fun v hv hpv => huniq v (List.mem_cons_of_mem a hv) hpv)

theorem findIdx_id_lt {l : List Entry} {e : Entry} (he : e ∈ l) :
    l.findIdx (fun x => x.id == e.id) < l.length :=
  List.findIdx_lt_length_of_exists ⟨e, he, by simp⟩

theorem getElem_findIdx_id {l : List Entry} (hnd : (entryIds l).Nodup) {e : Entry}
    (he : e ∈ l) (h : l.findIdx (fun x => x.id == e.id) < l.length) :
    l[l.findIdx (fun x => x.id == e.id)] = e := by
  have h1 : ((fun x => x.id == e.id) l[l.findIdx (fun x => x.id == e.id)]) = true :=
    List.findIdx_getElem (w := h)
  exact eq_of_id_eq hnd (List.getElem_mem h) he (by simpa using h1)

theorem findIdx_id_getElem {l : List Entry} (hnd : (entryIds l).Nodup) {i : Nat}
    (hi : i < l.length) : l.findIdx (fun x => x.id == l[i].id) = i := by
  rw [List.findIdx_eq hi]
  refine ⟨by simp, ?_⟩
  intro j hj
  have hjlen : j < l.length := lt_trans hj hi
  have hne : l[j].id ≠ l[i].id := by
    intro hc
    have heq : l[j] = l[i] :=
      eq_of_id_eq hnd (List.getElem_mem hjlen) (List.getElem_mem hi) hc
    have hl : l.Nodup := List.Nodup.of_map _ hnd
    exact absurd ((hl.getElem_inj_iff).mp heq) (by omega)
  simpa using hne

theorem map_eq_range_map {α β : Type} (l : List α) (f : α → β) (g : Nat → β)
    (h : ∀ i (hi : i < l.length), f l[i] = g i) :
    l.map f = (List.range l.length).map g := by
  apply List.ext_getElem
  · simp
  · intro i h1 h2
    simp only [List.getElem_map, List.getElem_range]
    exact h i (by simpa using h1)

/-! ### Characterisation of the rows produced by the two ranking branches -/

theorem find?_autoCalcUngrouped {entries : List Entry} (hnd : (entryIds entries).Nodup)
    {e : Entry} (he : e ∈ sortEntries entries) :
    (autoCalcUngrouped entries).find? (fun u => u.id == e.id) =
      some { id := e.id, tournament_id := e.tournament_id, team_id := e.team_id,
             team_name := e.team_name, points := e.points, kills := e.kills,
             wins := e.wins,
             position := ((sortEntries entries).findIdx (fun x => x.id == e.id) : Int) + 1,
             group_name := none, position_in_group := none } := by
  have hndS : (entryIds (sortEntries entries)).Nodup := nodup_ids_sortEntries hnd
  have hfi : (sortEntries entries).findIdx (fun x => x.id == e.id) <
      (sortEntries entries).length := findIdx_id_lt he
  have hget : (sortEntries entries)[(sortEntries entries).findIdx
      (fun x => x.id == e.id)] = e := getElem_findIdx_id hndS he hfi
  apply find?_eq_some_of_unique
  · unfold autoCalcUngrouped
    apply List.mem_map.mpr
    refine ⟨((sortEntries entries).findIdx (fun x => x.id == e.id),
      (sortEntries entries)[(sortEntries entries).findIdx (fun x => x.id == e.id)]),
      mem_enum_of_getElem hfi, ?_⟩
    rw [hget]
  · simp
  · intro v hv hpv
    unfold autoCalcUngrouped at hv
    obtain ⟨ie, hie, rfl⟩ := List.mem_map.mp hv
    obtain ⟨i, x⟩ := ie
    obtain ⟨hlt, hx⟩ := List.mem_enum hie
    simp only [beq_iff_eq] at hpv
    have hxmem : x ∈ sortEntries entries := by
      rw [hx]; exact List.getElem_mem hlt
    have hxe : x = e := eq_of_id_eq hndS hxmem he hpv
    have hie2 : i = (sortEntries entries).findIdx (fun x => x.id == e.id) := by
      have hSnd : (sortEntries entries).Nodup := List.Nodup.of_map _ hndS
      have : (sortEntries entries)[i] =
          (sortEntries entries)[(sortEntries entries).findIdx (fun x => x.id == e.id)] := by
        rw [hget, ← hx, hxe]
      exact (hSnd.getElem_inj_iff).mp this
    subst hxe
    subst hie2
    simp

theorem find?_autoCalcGrouped {entries : List Entry} (hnd : (entryIds entries).Nodup)
    {e : Entry} (he : e ∈ sortEntries entries) :
    (autoCalcGrouped entries).find? (fun u => u.id == e.id) =
      some { id := e.id, tournament_id := e.tournament_id, team_id := e.team_id,
             team_name := e.team_name, points := e.points, kills := e.kills,
             wins := e.wins,
             position := ((sortEntries entries).findIdx (fun x => x.id == e.id) : Int) + 1,
             group_name := some e.group_name,
             position_in_group := some
               (((bucketOfKey (sortEntries entries) (normGroup e.group_name)).findIdx
                  (fun x => x.id == e.id) : Int) + 1) } := by
  have hndS : (entryIds (sortEntries entries)).Nodup := nodup_ids_sortEntries hnd
  have heB : e ∈ bucketOfKey (sortEntries entries) (normGroup e.group_name) :=
    List.mem_filter.mpr ⟨he, by simp⟩
  have hndB : (entryIds (bucketOfKey (sortEntries entries) (normGroup e.group_name))).Nodup :=
    List.Sublist.nodup (List.Sublist.map _ (List.filter_sublist _)) hndS
  have hgi : (bucketOfKey (sortEntries entries) (normGroup e.group_name)).findIdx
      (fun x => x.id == e.id) <
      (bucketOfKey (sortEntries entries) (normGroup e.group_name)).length :=
    findIdx_id_lt heB
  have hgetB : (bucketOfKey (sortEntries entries) (normGroup e.group_name))[
      (bucketOfKey (sortEntries entries) (normGroup e.group_name)).findIdx
        (fun x => x.id == e.id)] = e :=
    getElem_findIdx_id hndB heB hgi
  have hgroup : (normGroup e.group_name,
      bucketOfKey (sortEntries entries) (normGroup e.group_name)) ∈
      groupByName (sortEntries entries) :=
    groupByName_mem.mpr ⟨⟨e, he, rfl⟩, rfl⟩
  apply find?_eq_some_of_unique
  · show _ ∈ autoCalcGrouped entries
    unfold autoCalcGrouped
    apply List.mem_flatMap.mpr
    refine ⟨(normGroup e.group_name,
      bucketOfKey (sortEntries entries) (normGroup e.group_name)), hgroup, ?_⟩
    unfold groupUpdates
    apply List.mem_map.mpr
    refine ⟨((bucketOfKey (sortEntries entries) (normGroup e.group_name)).findIdx
        (fun x => x.id == e.id),
      (bucketOfKey (sortEntries entries) (normGroup e.group_name))[
        (bucketOfKey (sortEntries entries) (normGroup e.group_name)).findIdx
          (fun x => x.id == e.id)]),
      mem_enum_of_getElem hgi, ?_⟩
    rw [hgetB]
    simp [overallIndexOf]
  · simp
  · intro v hv hpv
    unfold autoCalcGrouped at hv
    obtain ⟨gp, hgp, hvgp⟩ := List.mem_flatMap.mp hv
    obtain ⟨k', es'⟩ := gp
    obtain ⟨⟨e', he', hk'⟩, hes'⟩ := groupByName_mem.mp hgp
    subst hes'
    unfold groupUpdates at hvgp
    obtain ⟨ie, hie, rfl⟩ := List.mem_map.mp hvgp
    obtain ⟨i, x⟩ := ie
    obtain ⟨hlt, hx⟩ := List.mem_enum hie
    simp only [beq_iff_eq] at hpv
    have hxes : x ∈ bucketOfKey (sortEntries entries) k' := by
      rw [hx]; exact List.getElem_mem hlt
    have hxS : x ∈ sortEntries entries := (List.mem_filter.mp hxes).1
    have hxe : x = e := eq_of_id_eq hndS hxS he hpv
    have hkey : k' = normGroup e.group_name := by
      have hm := (List.mem_filter.mp hxes).2
      rw [hxe] at hm
      exact (beq_iff_eq.mp hm).symm
    subst hkey
    have hBie : (bucketOfKey (sortEntries entries) (normGroup e.group_name))[i] = e := by
      rw [← hx]; exact hxe
    have hi : i = (bucketOfKey (sortEntries entries) (normGroup e.group_name)).findIdx
        (fun x => x.id == e.id) := by
      have hBnd : (bucketOfKey (sortEntries entries) (normGroup e.group_name)).Nodup :=
        List.Nodup.of_map _ hndB
      have hgeteq : (bucketOfKey (sortEntries entries) (normGroup e.group_name))[i] =
          (bucketOfKey (sortEntries entries) (normGroup e.group_name))[
            (bucketOfKey (sortEntries entries) (normGroup e.group_name)).findIdx
              (fun x => x.id == e.id)] := by
        rw [hBie]
        exact hgetB.symm
      exact (hBnd.getElem_inj_iff).mp hgeteq
    subst hxe
    subst hi
    simp [overallIndexOf, hpv]

theorem length_sortEntries (l : List Entry) : (sortEntries l).length = l.length :=
  (sortEntries_perm l).length_eq

theorem groupUpdates_map_position (sorted es : List Entry) :
    (groupUpdates sorted es).map (·.position) =
      es.map (fun e => ((overallIndexOf sorted e : Int) + 1)) := by
  unfold groupUpdates
  rw [List.map_map]
  exact enum_map_snd_comp es (fun e => ((overallIndexOf sorted e : Int) + 1))

theorem groupUpdates_map_id (sorted es : List Entry) :
    (groupUpdates sorted es).map (·.id) = entryIds es := by
  unfold groupUpdates
  rw [List.map_map]
  exact enum_map_snd_comp es (fun e => e.id)

theorem groupUpdates_map_pig (sorted es : List Entry) :
    (groupUpdates sorted es).map (·.position_in_group) =
      (List.range es.length).map (fun (i : Nat) => some ((i : Int) + 1)) := by
  unfold groupUpdates
  rw [List.map_map]
  exact enum_map_fst_comp es (fun (i : Nat) => some ((i : Int) + 1))

theorem autoCalcGrouped_map_position_perm {entries : List Entry}
    (hnd : (entryIds entries).Nodup) :
    ((autoCalcGrouped entries).map (·.position)).Perm
      ((List.range entries.length).map (fun (i : Nat) => (i : Int) + 1)) := by
  have hndS : (entryIds (sortEntries entries)).Nodup := nodup_ids_sortEntries hnd
  unfold autoCalcGrouped
  rw [List.map_flatMap]
  have hf : (fun (gp : String × List Entry) =>
      (groupUpdates (sortEntries entries) gp.2).map (·.position)) =
      (fun gp => gp.2.map (fun e => ((overallIndexOf (sortEntries entries) e : Int) + 1))) :=
    funext (fun gp => groupUpdates_map_position _ _)
  rw [hf]
  have h2 : ((groupByName (sortEntries entries)).flatMap
        (fun gp => gp.2.map (fun e => ((overallIndexOf (sortEntries entries) e : Int) + 1)))) =
      (((groupByName (sortEntries entries)).flatMap (·.2)).map
        (fun e => ((overallIndexOf (sortEntries entries) e : Int) + 1))) := by
    rw [List.map_flatMap]
  rw [h2]
  refine ((groupByName_flat_perm (sortEntries entries)).map _).trans ?_
  have h3 : (sortEntries entries).map
      (fun e => ((overallIndexOf (sortEntries entries) e : Int) + 1)) =
      (List.range (sortEntries entries).length).map (fun (i : Nat) => (i : Int) + 1) := by
    apply map_eq_range_map
    intro i hi
    unfold overallIndexOf
    rw [findIdx_id_getElem hndS hi]
  rw [h3, length_sortEntries]

theorem pos_autoCalcUngrouped_eq (entries : List Entry) :
    (autoCalcUngrouped entries).map (·.position) =
      (List.range entries.length).map (fun (i : Nat) => (i : Int) + 1) := by
  unfold autoCalcUngrouped
  rw [List.map_map]
  have h := enum_map_fst_comp (sortEntries entries) (fun (i : Nat) => ((i : Int) + 1))
  rw [length_sortEntries] at h
  exact h

theorem ids_autoCalcUngrouped (entries : List Entry) :
    (autoCalcUngrouped entries).map (·.id) = entryIds (sortEntries entries) := by
  unfold autoCalcUngrouped
  rw [List.map_map]
  exact enum_map_snd_comp (sortEntries entries) (fun e => e.id)

theorem ids_autoCalcGrouped_perm (entries : List Entry) :
    ((autoCalcGrouped entries).map (·.id)).Perm (entryIds entries) := by
  unfold autoCalcGrouped
  rw [List.map_flatMap]
  have hf : (fun (gp : String × List Entry) =>
      (groupUpdates (sortEntries entries) gp.2).map (·.id)) =
      (fun gp => gp.2.map (fun e => e.id)) :=
    funext (fun gp => groupUpdates_map_id _ _)
  rw [hf]
  have h2 : ((groupByName (sortEntries entries)).flatMap (fun gp => gp.2.map (fun e => e.id))) =
      (((groupByName (sortEntries entries)).flatMap (·.2)).map (fun e => e.id)) := by
    rw [List.map_flatMap]
  rw [h2]
  exact ((groupByName_flat_perm (sortEntries entries)).map _).trans
    (entryIds_sortEntries_perm entries)

theorem ids_autoCalc_perm (b : Bool) (entries : List Entry) :
    ((autoCalculatePositions b entries).map (·.id)).Perm (entryIds entries) := by
  unfold autoCalculatePositions
  by_cases hne : entries.isEmpty
  · rw [if_pos hne]
    rw [List.isEmpty_iff.mp hne]
    rfl
  · rw [if_neg hne]
    cases b with
    | true => simpa using ids_autoCalcGrouped_perm entries
    | false =>
      simp only [Bool.false_eq_true, if_false]
      rw [ids_autoCalcUngrouped]
      exact entryIds_sortEntries_perm entries

theorem posOf_autoCalc (b : Bool) {entries : List Entry} (hnd : (entryIds entries).Nodup)
    {e : Entry} (he : e ∈ entries) :
    posOf (autoCalculatePositions b entries) e.id =
      some (((sortEntries entries).findIdx (fun x => x.id == e.id) : Int) + 1) := by
  have hne : entries.isEmpty = false := by
    cases entries
    · cases he
    · rfl
  have heS : e ∈ sortEntries entries := (sortEntries_perm entries).mem_iff.mpr he
  unfold autoCalculatePositions
  rw [hne]
  cases b with
  | true =>
    simp only [if_true, Bool.false_eq_true, if_false]
    unfold posOf
    rw [find?_autoCalcGrouped hnd heS]
    rfl
  | false =>
    simp only [Bool.false_eq_true, if_false]
    unfold posOf
    rw [find?_autoCalcUngrouped hnd heS]
    rfl

theorem gposOf_autoCalcGrouped {entries : List Entry} (hnd : (entryIds entries).Nodup)
    {e : Entry} (he : e ∈ entries) :
    gposOf (autoCalcGrouped entries) e.id =
      some (some (((bucketOfKey (sortEntries entries) (normGroup e.group_name)).findIdx
        (fun x => x.id == e.id) : Int) + 1)) := by
  have heS : e ∈ sortEntries entries := (sortEntries_perm entries).mem_iff.mpr he
  unfold gposOf
  rw [find?_autoCalcGrouped hnd heS]
  rfl

theorem posOf_autoCalc_none (b : Bool) (entries : List Entry) {z : String}
    (hz : z ∉ entryIds entries) :
    posOf (autoCalculatePositions b entries) z = none := by
  unfold posOf
  rw [List.find?_eq_none.mpr]
  · rfl
  intro u hu
  have hid : u.id ∈ entryIds entries := by
    have hperm := ids_autoCalc_perm b entries
    exact hperm.mem_iff.mp (List.mem_map_of_mem _ hu)
  simp only [beq_iff_eq]
  intro hc
  exact hz (hc ▸ hid)

/-! ### Stability of the sort -/

theorem pair_sublist_of_getElem {α : Type} (l : List α) {i j : Nat} (hi : i < l.length)
    (hj : j < l.length) (hij : i < j) : [l[i], l[j]].Sublist l := by
  have hd : j - (i + 1) < (List.drop (i + 1) l).length := by
    simp only [List.length_drop]
    omega
  have hget : (List.drop (i + 1) l)[j - (i + 1)] = l[j] := by
    rw [List.getElem_drop]
    congr 1
    omega
  have h1 : [l[j]].Sublist (List.drop (i + 1) l) := by
    rw [List.singleton_sublist, ← hget]
    exact List.getElem_mem hd
  have h2 : [l[i], l[j]].Sublist (l[i] :: List.drop (i + 1) l) :=
    List.cons_sublist_cons.mpr h1
  have h3 : l[i] :: List.drop (i + 1) l = List.drop i l :=
    (List.drop_eq_getElem_cons hi).symm
  rw [h3] at h2
  exact h2.trans (List.drop_sublist i l)

theorem pair_sublist_decomp {α : Type} {x y : α} :
    ∀ {S : List α}, [x, y].Sublist S → ∃ s1 s2 s3, S = s1 ++ x :: s2 ++ y :: s3 := by
  intro S
  induction S with
  | nil => intro h; cases h
  | cons a S ih =>
    intro h
    cases h with
    | cons _ h2 =>
      obtain ⟨s1, s2, s3, rfl⟩ := ih h2
      exact ⟨a :: s1, s2, s3, rfl⟩
    | cons₂ _ h2 =>
      obtain ⟨s2, s3, rfl⟩ := List.append_of_mem (List.singleton_sublist.mp h2)
      exact ⟨[], s2, s3, rfl⟩

theorem sortEntries_stable_findIdx {entries : List Entry} (hnd : (entryIds entries).Nodup)
    {i j : Nat} (hi : i < entries.length) (hj : j < entries.length) (hij : i < j)
    (hle : entryLE entries[i] entries[j] = true) :
    (sortEntries entries).findIdx (fun x => x.id == entries[i].id) <
      (sortEntries entries).findIdx (fun x => x.id == entries[j].id) := by
  have hsub : [entries[i], entries[j]].Sublist entries :=
    pair_sublist_of_getElem entries hi hj hij
  have hsubS : [entries[i], entries[j]].Sublist (sortEntries entries) :=
    List.pair_sublist_mergeSort entryLE_trans entryLE_total hle hsub
  obtain ⟨s1, s2, s3, hS⟩ := pair_sublist_decomp hsubS
  have hndS : (entryIds (sortEntries entries)).Nodup := nodup_ids_sortEntries hnd
  rw [hS] at hndS
  have hids : entryIds (s1 ++ entries[i] :: s2 ++ entries[j] :: s3) =
      entryIds s1 ++ entries[i].id :: (entryIds s2 ++ entries[j].id :: entryIds s3) := by
    simp [entryIds]
  rw [hids] at hndS
  have hx1 : entries[i].id ∉ entryIds s1 := by
    rw [List.nodup_append] at hndS
    intro hc
    exact hndS.2.2 hc (List.mem_cons_self _ _)
  have hy1 : entries[j].id ∉ entryIds (s1 ++ entries[i] :: s2) := by
    rw [List.nodup_append] at hndS
    have hnd2 := hndS.2.1
    rw [List.nodup_cons] at hnd2
    intro hc
    rw [entryIds, List.map_append, List.mem_append] at hc
    rcases hc with hc | hc
    · exact hndS.2.2 hc (by
        apply List.mem_cons_of_mem
        rw [List.mem_append]
        exact Or.inr (List.mem_cons_self _ _))
    · rw [List.map_cons, List.mem_cons] at hc
      rcases hc with hc | hc
      · exact hnd2.1 (by
          rw [List.mem_append, ← hc]
          exact Or.inr (List.mem_cons_self _ _))
      · have := hnd2.2
        rw [List.nodup_append] at this
        exact this.2.2 hc (List.mem_cons_self _ _)
  have hS1 : sortEntries entries = s1 ++ entries[i] :: (s2 ++ entries[j] :: s3) := by
    rw [hS]
    simp
  have h1 : (sortEntries entries).findIdx (fun x => x.id == entries[i].id) = s1.length := by
    rw [hS1]
    exact findIdx_id_of_append s1 (s2 ++ entries[j] :: s3) entries[i] hx1
  have hS2 : sortEntries entries = (s1 ++ entries[i] :: s2) ++ entries[j] :: s3 := hS
  have h2 : (sortEntries entries).findIdx (fun x => x.id == entries[j].id) =
      (s1 ++ entries[i] :: s2).length := by
    rw [hS2]
    exact findIdx_id_of_append (s1 ++ entries[i] :: s2) s3 entries[j] hy1
  rw [h1, h2]
  simp only [List.length_append, List.length_cons]
  omega

/-! ### Changing one record's group label -/

theorem regroup_id (rid : String) (g : Option String) (e : Entry) :
    (regroup rid g e).id = e.id := by
  unfold regroup
  split <;> rfl

theorem regroup_points (rid : String) (g : Option String) (e : Entry) :
    (regroup rid g e).points = e.points := by
  unfold regroup
  split <;> rfl

theorem regroup_kills (rid : String) (g : Option String) (e : Entry) :
    (regroup rid g e).kills = e.kills := by
  unfold regroup
  split <;> rfl

theorem regroup_of_ne (rid : String) (g : Option String) {e : Entry} (h : e.id ≠ rid) :
    regroup rid g e = e := by
  unfold regroup
  rw [if_neg h]

theorem entryLE_regroup (rid : String) (g : Option String) (a b : Entry) :
    entryLE (regroup rid g a) (regroup rid g b) = entryLE a b := by
  simp only [entryLE, regroup_points, regroup_kills]

theorem sortEntries_map_regroup (rid : String) (g : Option String) (entries : List Entry) :
    sortEntries (entries.map (regroup rid g)) =
      (sortEntries entries).map (regroup rid g) := by
  unfold sortEntries
  exact (List.map_mergeSort (fun a _ b _ => (entryLE_regroup rid g a b).symm)).symm

theorem entryIds_map_regroup (rid : String) (g : Option String) (entries : List Entry) :
    entryIds (entries.map (regroup rid g)) = entryIds entries := by
  unfold entryIds
  rw [List.map_map]
  exact List.map_congr_left (fun a _ => regroup_id rid g a)

theorem findIdx_id_map_regroup (rid : String) (g : Option String) (l : List Entry)
    (z : String) :
    (l.map (regroup rid g)).findIdx (fun x => x.id == z) =
      l.findIdx (fun x => x.id == z) := by
  induction l with
  | nil => rfl
  | cons a l ih =>
    simp only [List.map_cons, List.findIdx_cons, regroup_id, ih]

/-! ### Facts about `autoAssignGroups` -/

theorem length_autoAssignGroups (entries : List Entry) (G : Int) :
    (autoAssignGroups entries G).length = entries.length := by
  unfold autoAssignGroups
  simp [List.enum_length]

theorem getElem?_autoAssignGroups (entries : List Entry) (G : Int) (i : Nat)
    (hi : i < entries.length) :
    (autoAssignGroups entries G)[i]? =
      some { entries[i] with group_name := some (jsGroupLabel (jsSliceTo groupLetters G) i G) } := by
  unfold autoAssignGroups
  rw [List.getElem?_map]
  have hei : i < entries.enum.length := by simpa [List.enum_length] using hi
  rw [List.getElem?_eq_getElem hei, List.getElem_enum]
  rfl

theorem jsGroupLabel_inRange (G : Int) (h2 : 2 ≤ G) (h8 : G ≤ 8) (i : Nat) :
    jsGroupLabel (jsSliceTo groupLetters G) i G =
      "Group " ++ groupLetters.getD (i % G.toNat) "undefined" := by
  unfold jsGroupLabel jsSliceTo
  rw [if_neg (by omega : ¬ G < 0), if_neg (by omega : ¬ G = 0)]
  have habs : G.natAbs = G.toNat := by omega
  rw [habs]
  have hpos : 0 < G.toNat := by omega
  have hlt : i % G.toNat < G.toNat := Nat.mod_lt _ hpos
  rw [List.get?_eq_getElem?, List.getElem?_take, if_pos hlt]
  have hlen : i % G.toNat < groupLetters.length := by
    have h8n : G.toNat ≤ 8 := by omega
    have : groupLetters.length = 8 := by rfl
    omega
  rw [List.getElem?_eq_getElem hlen]
  rw [List.getD_eq_getElem?_getD, List.getElem?_eq_getElem hlen]
  rfl

theorem jsGroupLabel_overflow (G : Int) (h8 : 8 < G) (i : Nat)
    (hmod : 8 ≤ i % G.toNat) :
    jsGroupLabel (jsSliceTo groupLetters G) i G = "Group undefined" := by
  unfold jsGroupLabel jsSliceTo
  rw [if_neg (by omega : ¬ G < 0), if_neg (by omega : ¬ G = 0)]
  have habs : G.natAbs = G.toNat := by omega
  rw [habs]
  have hpos : 0 < G.toNat := by omega
  have hlt : i % G.toNat < G.toNat := Nat.mod_lt _ hpos
  rw [List.get?_eq_getElem?, List.getElem?_take, if_pos hlt]
  have hnone : groupLetters[i % G.toNat]? = none := by
    apply List.getElem?_eq_none
    have : groupLetters.length = 8 := by rfl
    omega
  rw [hnone]

/-! ### Claims -/

/-- C1 (code bug at the failing input): the claim requires a tie on points and
kills to be broken by more wins.  At `c1Entries` — two records tied on 10
points and 5 kills, wins 0 and 3, the fewer-wins record first —
`autoCalculatePositions` keeps the input order and gives the fewer-wins
record the better position 1, because its comparator never reads `wins`
(first conjunct); the revised public table's comparator `entryLE3` orders the
more-wins record first, as the claim demands (second conjunct). -/
theorem c1_autoCalc_ignores_wins :
    ((autoCalculatePositions false c1Entries).map (fun u => (u.id, u.position)) =
      [("t1", (1 : Int)), ("t2", 2)]) ∧
    ((c1Entries.mergeSort entryLE3).map (·.id) = ["t2", "t1"]) := by
  constructor
  · simp [autoCalculatePositions, autoCalcUngrouped, sortEntries, c1Entries, cE,
      List.mergeSort, List.splitInTwo, List.merge, entryLE]
    decide
  · simp [c1Entries, cE, List.mergeSort, List.splitInTwo, List.merge, entryLE3]

/-- C2: for every non-empty batch with pairwise distinct ids, the overall
positions assigned by the ranking operation are exactly `1..N` with no
duplicates and no gaps, in both the grouped and the ungrouped branch. -/
theorem c2_positions_contiguous (b : Bool) (entries : List Entry)
    (hne : entries ≠ []) (hnd : (entryIds entries).Nodup) :
    ((autoCalculatePositions b entries).map (·.position)).Perm
      ((List.range entries.length).map (fun (i : Nat) => (i : Int) + 1)) := by
  have hem : entries.isEmpty = false := by
    cases entries
    · exact absurd rfl hne
    · rfl
  unfold autoCalculatePositions
  rw [hem]
  cases b with
  | true =>
    simp only [if_true, Bool.false_eq_true, if_false]
    exact autoCalcGrouped_map_position_perm hnd
  | false =>
    simp only [Bool.false_eq_true, if_false]
    rw [pos_autoCalcUngrouped_eq]

/-- C2 witness at a concrete grouped batch of four records. -/
theorem c2_witness :
    c3Entries ≠ [] ∧ (entryIds c3Entries).Nodup ∧
    ((autoCalculatePositions true c3Entries).map (·.position)).Perm
      ((List.range c3Entries.length).map (fun (i : Nat) => (i : Int) + 1)) :=
  ⟨by decide, by decide, c2_positions_contiguous true c3Entries (by decide) (by decide)⟩

/-- C3: every bucket `(k, es)` of the grouped branch's partition of the sorted
snapshot consists of exactly the entries whose normalised label is `k`
(so `M = es.length` is the group size), its emitted rows all belong to the
operation's output, and their `position_in_group` values are exactly `1..M`,
computed independently per bucket. -/
theorem c3_group_positions_contiguous (entries : List Entry) (k : String)
    (es : List Entry) (h : (k, es) ∈ groupByName (sortEntries entries)) :
    es = bucketOfKey (sortEntries entries) k ∧
    (∀ u ∈ groupUpdates (sortEntries entries) es,
      u ∈ autoCalculatePositions true entries) ∧
    (groupUpdates (sortEntries entries) es).map (·.position_in_group) =
      (List.range es.length).map (fun (i : Nat) => some ((i : Int) + 1)) := by
  obtain ⟨⟨e, heS, hkey⟩, hes⟩ := groupByName_mem.mp h
  refine ⟨hes, ?_, groupUpdates_map_pig _ _⟩
  intro u hu
  have hne : entries.isEmpty = false := by
    have hme : e ∈ entries := (sortEntries_perm entries).mem_iff.mp heS
    cases entries
    · cases hme
    · rfl
  unfold autoCalculatePositions
  rw [hne]
  simp only [if_true, Bool.false_eq_true, if_false]
  unfold autoCalcGrouped
  exact List.mem_flatMap.mpr ⟨(k, es), h, hu⟩

/-- C3 witness at the X bucket of the concrete grouped batch. -/
theorem c3_witness :
    ("X", c3BucketX) ∈ groupByName (sortEntries c3Entries) ∧
    (groupUpdates (sortEntries c3Entries) c3BucketX).map (·.position_in_group) =
      (List.range c3BucketX.length).map (fun (i : Nat) => some ((i : Int) + 1)) := by
  have hs : sortEntries c3Entries =
      [cE "x1" "XrayOne" 10 0 0 (some "X"), cE "y1" "YankeeOne" 9 0 0 (some "Y"),
       cE "x2" "XrayTwo" 8 0 0 (some "X"), cE "y2" "YankeeTwo" 7 0 0 (some "Y")] := by
    simp [sortEntries, c3Entries, cE, List.mergeSort, List.splitInTwo, List.merge, entryLE]
  have hmem : ("X", c3BucketX) ∈ groupByName (sortEntries c3Entries) := by
    rw [hs]
    decide
  exact ⟨hmem, (c3_group_positions_contiguous c3Entries "X" c3BucketX hmem).2.2⟩

/-- C4: two records with fully equal (points, kills, wins) tuples keep their
relative input order — the earlier one receives the strictly smaller overall
position, in both branches. -/
theorem c4_stable_ties (b : Bool) (entries : List Entry)
    (hnd : (entryIds entries).Nodup) (i j : Nat) (hi : i < entries.length)
    (hj : j < entries.length) (hij : i < j)
    (hp : entries[i].points = entries[j].points)
    (hk : entries[i].kills = entries[j].kills)
    (hw : entries[i].wins = entries[j].wins) :
    ∃ p1 p2 : Int,
      posOf (autoCalculatePositions b entries) entries[i].id = some p1 ∧
      posOf (autoCalculatePositions b entries) entries[j].id = some p2 ∧ p1 < p2 := by
  have hle : entryLE entries[i] entries[j] = true := by
    rw [entryLE_iff]
    omega
  have hlt := sortEntries_stable_findIdx hnd hi hj hij hle
  have h1 := posOf_autoCalc b hnd (List.getElem_mem hi)
  have h2 := posOf_autoCalc b hnd (List.getElem_mem hj)
  refine ⟨_, _, h1, h2, ?_⟩
  omega

/-- C4 witness at two fully tied concrete records. -/
theorem c4_witness :
    ∃ p1 p2 : Int,
      posOf (autoCalculatePositions false c4Entries) c4Entries[0].id = some p1 ∧
      posOf (autoCalculatePositions false c4Entries) c4Entries[1].id = some p2 ∧
      p1 < p2 :=
  c4_stable_ties false c4Entries (by decide) 0 1 (by decide) (by decide) (by decide)
    (by decide) (by decide) (by decide)

/-- C5: re-running the grouped ranking after rewriting one record's
`group_name` leaves every id's overall position unchanged, and leaves the
group position of every record outside the moved record's old and new groups
unchanged. -/
theorem c5_regroup_independent (entries : List Entry) (r : Entry) (g : Option String)
    (hnd : (entryIds entries).Nodup) (hr : r ∈ entries) :
    (∀ z : String,
      posOf (autoCalculatePositions true (entries.map (regroup r.id g))) z =
        posOf (autoCalculatePositions true entries) z) ∧
    (∀ e ∈ entries, e.id ≠ r.id →
      normGroup e.group_name ≠ normGroup r.group_name →
      normGroup e.group_name ≠ normGroup g →
      gposOf (autoCalculatePositions true (entries.map (regroup r.id g))) e.id =
        gposOf (autoCalculatePositions true entries) e.id) := by
  have hnd2 : (entryIds (entries.map (regroup r.id g))).Nodup := by
    rw [entryIds_map_regroup]
    exact hnd
  constructor
  · intro z
    by_cases hz : z ∈ entryIds entries
    · obtain ⟨e, he, rfl⟩ := List.mem_map.mp hz
      have h1 := posOf_autoCalc true hnd he
      have he2 : regroup r.id g e ∈ entries.map (regroup r.id g) :=
        List.mem_map_of_mem _ he
      have h2 := posOf_autoCalc true hnd2 he2
      rw [regroup_id] at h2
      rw [h1, h2]
      rw [sortEntries_map_regroup, findIdx_id_map_regroup]
    · have hz2 : z ∉ entryIds (entries.map (regroup r.id g)) := by
        rw [entryIds_map_regroup]
        exact hz
      rw [posOf_autoCalc_none true _ hz2, posOf_autoCalc_none true _ hz]
  · intro e he hner hko hkn
    have heq : regroup r.id g e = e := regroup_of_ne _ _ hner
    have he2 : e ∈ entries.map (regroup r.id g) := by
      rw [← heq]
      exact List.mem_map_of_mem _ he
    have hem : entries.isEmpty = false := by
      cases entries
      · cases he
      · rfl
    have hem2 : (entries.map (regroup r.id g)).isEmpty = false := by
      cases entries
      · cases he
      · rfl
    have hred1 : autoCalculatePositions true entries = autoCalcGrouped entries := by
      unfold autoCalculatePositions
      rw [hem]
      simp
    have hred2 : autoCalculatePositions true (entries.map (regroup r.id g)) =
        autoCalcGrouped (entries.map (regroup r.id g)) := by
      unfold autoCalculatePositions
      rw [hem2]
      simp
    rw [hred1, hred2]
    rw [gposOf_autoCalcGrouped hnd2 he2, gposOf_autoCalcGrouped hnd he]
    have hbucket : bucketOfKey (sortEntries (entries.map (regroup r.id g)))
        (normGroup e.group_name) =
        bucketOfKey (sortEntries entries) (normGroup e.group_name) := by
      rw [sortEntries_map_regroup]
      unfold bucketOfKey
      rw [List.filter_map]
      have hpf : ∀ x ∈ sortEntries entries,
          ((fun e2 => normGroup e2.group_name == normGroup e.group_name) ∘ regroup r.id g) x =
          (fun e2 => normGroup e2.group_name == normGroup e.group_name) x := by
        intro x hx
        by_cases hxr : x.id = r.id
        · have hxe : x = r :=
            eq_of_id_eq hnd ((sortEntries_perm entries).mem_iff.mp hx) hr hxr
          subst hxe
          have hrg : regroup x.id g x = { x with group_name := g } := by
            unfold regroup
            rw [if_pos rfl]
          show (normGroup (regroup x.id g x).group_name == normGroup e.group_name) =
            (normGroup x.group_name == normGroup e.group_name)
          rw [hrg]
          have hL : (normGroup g == normGroup e.group_name) = false :=
            beq_eq_false_iff_ne.mpr (fun hc => hkn hc.symm)
          have hR : (normGroup x.group_name == normGroup e.group_name) = false :=
            beq_eq_false_iff_ne.mpr (fun hc => hko hc.symm)
          rw [hL, hR]
        · show (normGroup (regroup r.id g x).group_name == normGroup e.group_name) =
            (normGroup x.group_name == normGroup e.group_name)
          rw [regroup_of_ne _ _ hxr]
      rw [List.filter_congr hpf]
      have hmapid : ∀ x ∈ (sortEntries entries).filter
          (fun e2 => normGroup e2.group_name == normGroup e.group_name),
          regroup r.id g x = id x := by
        intro x hx
        obtain ⟨hxS, hpx⟩ := List.mem_filter.mp hx
        by_cases hxr : x.id = r.id
        · have hxe : x = r :=
            eq_of_id_eq hnd ((sortEntries_perm entries).mem_iff.mp hxS) hr hxr
          rw [hxe] at hpx
          exact absurd (beq_iff_eq.mp hpx).symm hko
        · exact regroup_of_ne _ _ hxr
      rw [List.map_congr_left hmapid, List.map_id]
    rw [hbucket]

/-- C5 witness: move the team with id x2 from group X to group Z in the
concrete batch. -/
theorem c5_witness :
    (∀ z : String,
      posOf (autoCalculatePositions true
        (c3Entries.map (regroup (cE "x2" "XrayTwo" 8 0 0 (some "X")).id (some "Z")))) z =
        posOf (autoCalculatePositions true c3Entries) z) ∧
    (∀ e ∈ c3Entries, e.id ≠ (cE "x2" "XrayTwo" 8 0 0 (some "X")).id →
      normGroup e.group_name ≠ normGroup (cE "x2" "XrayTwo" 8 0 0 (some "X")).group_name →
      normGroup e.group_name ≠ normGroup (some "Z") →
      gposOf (autoCalculatePositions true
        (c3Entries.map (regroup (cE "x2" "XrayTwo" 8 0 0 (some "X")).id (some "Z")))) e.id =
        gposOf (autoCalculatePositions true c3Entries) e.id) :=
  c5_regroup_independent c3Entries (cE "x2" "XrayTwo" 8 0 0 (some "X")) (some "Z")
    (by decide) (by decide)

/-- C6 (amended): `autoAssignGroups` performs no validation of the requested
group count.  Even for a count outside `[2, 8]` it proceeds: the output keeps
one row per record, every row is labelled by the round-robin rule, and for a
count above 8, cycle indices past the eighth letter get the literal label
"Group undefined". -/
theorem c6_no_groupCount_validation (entries : List Entry) (G : Int)
    (hout : G < 2 ∨ 8 < G) :
    (autoAssignGroups entries G).length = entries.length ∧
    ∀ i, (hi : i < entries.length) →
      ((autoAssignGroups entries G)[i]? = some { entries[i] with group_name := some (jsGroupLabel (jsSliceTo groupLetters G) i G) }) ∧
      (8 < G → 8 ≤ i % G.toNat →
        jsGroupLabel (jsSliceTo groupLetters G) i G = "Group undefined") :=
  ⟨length_autoAssignGroups entries G, fun i hi =>
    ⟨getElem?_autoAssignGroups entries G i hi,
     fun h8 hm => jsGroupLabel_overflow G h8 i hm⟩⟩

/-- C6 counterexample: at `groupCount = 9` (outside [2, 8]) the operation does
not reject — it assigns a label to all nine records, the ninth being the
literal "Group undefined". -/
theorem c6_counterexample :
    (autoAssignGroups c6Entries 9).map (·.group_name) =
      [some "Group A", some "Group B", some "Group C", some "Group D",
       some "Group E", some "Group F", some "Group G", some "Group H",
       some "Group undefined"] := by
  decide

/-- C6 witness at the concrete nine-record batch and count 9. -/
theorem c6_witness :
    ((9 : Int) < 2 ∨ 8 < (9 : Int)) ∧
    ((autoAssignGroups c6Entries 9).length = c6Entries.length ∧
    ∀ i, (hi : i < c6Entries.length) →
      ((autoAssignGroups c6Entries 9)[i]? = some { c6Entries[i] with group_name := some (jsGroupLabel (jsSliceTo groupLetters 9) i 9) }) ∧
      (8 < (9 : Int) → 8 ≤ i % (9 : Int).toNat →
        jsGroupLabel (jsSliceTo groupLetters 9) i 9 = "Group undefined")) :=
  ⟨by decide, c6_no_groupCount_validation c6Entries 9 (by decide)⟩

/-- C7 (amended): there is no counter validation — a batch containing a
negative counter is still ranked in full, the operation emitting exactly one
update row per input record (the update ids are a permutation of the input
ids), in both branches. -/
theorem c7_negative_batch_fully_ranked (b : Bool) (entries : List Entry)
    (e : Entry) (he : e ∈ entries)
    (hneg : e.points < 0 ∨ e.kills < 0 ∨ e.wins < 0) :
    ((autoCalculatePositions b entries).map (·.id)).Perm (entryIds entries) :=
  ids_autoCalc_perm b entries

/-- C7 counterexample: `saveEdit` coerces the form value "-5" to the negative
number -5 and builds an update for it instead of rejecting, and the ranker
ranks a batch containing a negative counter in full (both records receive
positions; the negative-points record sorts last). -/
theorem c7_counterexample :
    saveEditData { points := "-5", kills := "3", wins := "0", position := "1", group_name := "" } false =
      { points := -5, kills := 3, wins := 0, position := 1, group_name := none } ∧
    (autoCalculatePositions false c7Entries).map (fun u => (u.id, u.position)) =
      [("n2", (1 : Int)), ("n1", 2)] := by
  constructor
  · decide
  · simp [autoCalculatePositions, autoCalcUngrouped, sortEntries, c7Entries, cE,
      List.mergeSort, List.splitInTwo, List.merge, entryLE]
    decide

/-- C7 witness at the concrete batch with a negative points counter. -/
theorem c7_witness :
    cE "n1" "Negative" (-5) 2 0 none ∈ c7Entries ∧
    ((cE "n1" "Negative" (-5) 2 0 none).points < 0 ∨
      (cE "n1" "Negative" (-5) 2 0 none).kills < 0 ∨
      (cE "n1" "Negative" (-5) 2 0 none).wins < 0) ∧
    ((autoCalculatePositions false c7Entries).map (·.id)).Perm (entryIds c7Entries) :=
  ⟨by decide, by decide,
   c7_negative_batch_fully_ranked false c7Entries (cE "n1" "Negative" (-5) 2 0 none)
     (by decide) (by decide)⟩

/-- C8: for any standings list and a group count in [2, 8], `autoAssignGroups`
labels the record at index `i` with the letter numbered `i mod G`, cycling
"Group A", "Group B", … in input order; in particular over the seven-record
batch with count 3 the labels cycle A,B,C,A,B,C,A, giving group sizes
3, 2, 2. -/
theorem c8_roundRobin_modulo :
    (∀ (entries : List Entry) (G : Int), 2 ≤ G → G ≤ 8 →
      ∀ i, (hi : i < entries.length) →
        (autoAssignGroups entries G)[i]? = some { entries[i] with group_name := some ("Group " ++ groupLetters.getD (i % G.toNat) "undefined") }) ∧
    ((autoAssignGroups c8Entries 3).map (·.group_name) =
      [some "Group A", some "Group B", some "Group C", some "Group A",
       some "Group B", some "Group C", some "Group A"]) ∧
    ((autoAssignGroups c8Entries 3).countP (fun e => e.group_name == some "Group A") = 3) ∧
    ((autoAssignGroups c8Entries 3).countP (fun e => e.group_name == some "Group B") = 2) ∧
    ((autoAssignGroups c8Entries 3).countP (fun e => e.group_name == some "Group C") = 2) := by
  refine ⟨?_, by decide, by decide, by decide, by decide⟩
  intro entries G h2 h8 i hi
  rw [getElem?_autoAssignGroups entries G i hi, jsGroupLabel_inRange G h2 h8 i]

/-- C8 witness: the record at index 3 with count 3 is labelled by letter
number 3 mod 3 = 0, i.e. "Group A". -/
theorem c8_witness :
    ((2 : Int) ≤ 3 ∧ (3 : Int) ≤ 8 ∧ 3 < c8Entries.length) ∧
    (autoAssignGroups c8Entries 3)[3]? = some { c8Entries[3] with group_name := some ("Group " ++ groupLetters.getD (3 % (3 : Int).toNat) "undefined") } :=
  ⟨⟨by decide, by decide, by decide⟩,
   c8_roundRobin_modulo.1 c8Entries 3 (by decide) (by decide) 3 (by decide)⟩

/-- C9: every update row the operation produces carries its source record's
id, tournament id, team id, team name, points, kills and wins unchanged, and
applying the upsert leaves the stored `group_name` unchanged (the grouped
branch rewrites it with the identical value, the ungrouped branch omits the
column): only `position` and `position_in_group` are written. -/
theorem c9_frame_only_positions (b : Bool) (entries : List Entry) :
    ∀ u ∈ autoCalculatePositions b entries, ∃ e ∈ entries,
      u.id = e.id ∧ u.tournament_id = e.tournament_id ∧ u.team_id = e.team_id ∧
      u.team_name = e.team_name ∧ u.points = e.points ∧ u.kills = e.kills ∧
      u.wins = e.wins ∧ (applyUpsert e u).group_name = e.group_name := by
  intro u hu
  unfold autoCalculatePositions at hu
  by_cases hem : entries.isEmpty
  · rw [if_pos hem] at hu
    cases hu
  · rw [if_neg hem] at hu
    cases b with
    | true =>
      rw [if_pos rfl] at hu
      unfold autoCalcGrouped at hu
      obtain ⟨gp, hgp, hvgp⟩ := List.mem_flatMap.mp hu
      obtain ⟨k', es'⟩ := gp
      obtain ⟨hmk, hes⟩ := groupByName_mem.mp hgp
      unfold groupUpdates at hvgp
      obtain ⟨ie, hie, rfl⟩ := List.mem_map.mp hvgp
      obtain ⟨i, x⟩ := ie
      obtain ⟨hlt, hx⟩ := List.mem_enum hie
      have hxS : x ∈ sortEntries entries := by
        have hxes : x ∈ es' := by
          rw [hx]
          exact List.getElem_mem hlt
        rw [hes] at hxes
        exact (List.mem_filter.mp hxes).1
      refine ⟨x, (sortEntries_perm entries).mem_iff.mp hxS, ?_⟩
      simp [applyUpsert]
    | false =>
      rw [if_neg (by simp)] at hu
      unfold autoCalcUngrouped at hu
      obtain ⟨ie, hie, rfl⟩ := List.mem_map.mp hu
      obtain ⟨i, x⟩ := ie
      obtain ⟨hlt, hx⟩ := List.mem_enum hie
      have hxS : x ∈ sortEntries entries := by
        rw [hx]
        exact List.getElem_mem hlt
      refine ⟨x, (sortEntries_perm entries).mem_iff.mp hxS, ?_⟩
      simp [applyUpsert]

/-- C9 witness at a one-record batch. -/
theorem c9_witness :
    c9Row ∈ autoCalculatePositions false [c9Entry] ∧
    ∃ e ∈ [c9Entry], c9Row.id = e.id ∧ c9Row.tournament_id = e.tournament_id ∧
      c9Row.team_id = e.team_id ∧ c9Row.team_name = e.team_name ∧
      c9Row.points = e.points ∧ c9Row.kills = e.kills ∧ c9Row.wins = e.wins ∧
      (applyUpsert e c9Row).group_name = e.group_name := by
  have hmem : c9Row ∈ autoCalculatePositions false [c9Entry] := by
    simp [autoCalculatePositions, autoCalcUngrouped, sortEntries, c9Entry, cE, c9Row,
      List.mergeSort]
  exact ⟨hmem, c9_frame_only_positions false [c9Entry] c9Row hmem⟩

/-- C10: `parseTeamSize` is total and defaults to solo — it returns 1 on
null, undefined and any string that matches none of the duo/squad/five
keywords and fails numeric parsing — and whenever the parsed size is at most
1 the points-table component renders nothing at all (not even the loading or
empty-state card). -/
theorem c10_parseTeamSize_solo_renders_nothing :
    parseTeamSize TeamSizeValue.nullVal = 1 ∧
    parseTeamSize TeamSizeValue.undefVal = 1 ∧
    (∀ s : String, s ≠ "" →
      strIncludes (jsLowerTrim s) "duo" = false → jsLowerTrim s ≠ "2" →
      strIncludes (jsLowerTrim s) "squad" = false → jsLowerTrim s ≠ "4" →
      strIncludes (jsLowerTrim s) "5" = false →
      strIncludes (jsLowerTrim s) "five" = false →
      parseIntJS (jsLowerTrim s) = none →
      parseTeamSize (TeamSizeValue.str s) = 1) ∧
    (∀ (ts : TeamSizeValue) (loading : Bool) (entries : List Entry),
      parseTeamSize ts ≤ 1 → pointsTableView ts loading entries = none) := by
  refine ⟨rfl, rfl, ?_, ?_⟩
  · intro s hs hduo h2 hsq h4 h5 hfive hparse
    simp [parseTeamSize, hs, hduo, h2, hsq, h4, h5, hfive, hparse]
  · intro ts loading entries h
    simp [pointsTableView, h]

/-- C10 witness: the unrecognized string "solo" parses to 1 and the component
renders nothing for it. -/
theorem c10_witness :
    parseTeamSize (TeamSizeValue.str "solo") = 1 ∧
    pointsTableView (TeamSizeValue.str "solo") false [c9Entry] = none := by
  constructor
  · exact c10_parseTeamSize_solo_renders_nothing.2.2.1 "solo" (by decide) (by decide)
      (by decide) (by decide) (by decide) (by decide) (by decide) (by decide)
  · exact c10_parseTeamSize_solo_renders_nothing.2.2.2 (TeamSizeValue.str "solo") false
      [c9Entry] (by decide)
